import Mathlib

/-!
# Verification of the Squiss SQS poller core

Shallow embedding of `src/index.js` (the `Squiss` class), `src/Message.js`
(the `Message` class) and the `TimeoutExtender` module, with theorems about
the backpressure rule, message disposal, delete batching, send batching,
lease renewal and the error paths of the receive loop.

JS numbers that only ever hold non-negative integers are embedded as `Nat`;
counters and clock values that the code can drive below zero or subtract on
are embedded as `Int`.  External collaborators (the AWS SQS transport and
`JSON.parse`) are passed in as explicit parameters or outcome values, as the
code treats them as injected capabilities.
-/

namespace Squiss

/-- A JS `Error` as observed by the code: the optional `code` property
(absent on e.g. `SyntaxError`) and the `message` string. -/
structure Err where
  code : Option String
  message : String
  deriving Repr, DecidableEq

/-- Events emitted on the Squiss `EventEmitter`.  Message-valued payloads are
identified by the `MessageId`. -/
inductive Event where
  | gotMessages (n : Nat)
  | message (msgId : String)
  | queueEmpty
  | maxInFlight
  | drained
  | aborted
  | error (e : Err)
  | delError (failedId : String)
  | timeoutExtended (msgId : String)
  | autoExtendFail (msgId : String) (e : Err)
  deriving Repr, DecidableEq

/-- Constructor options (`optDefaults` in src/index.js plus the fields the
claims touch), after `Object.assign` with user options. -/
structure Opts where
  receiveBatchSize : Nat := 10
  receiveWaitTimeSecs : Nat := 20
  deleteBatchSize : Nat := 10
  deleteWaitMs : Nat := 2000
  maxInFlight : Nat := 100
  pollRetryMs : Nat := 2000
  activePollIntervalMs : Nat := 0
  idlePollIntervalMs : Nat := 0
  deriving Repr, DecidableEq

/-- The clamping the constructor applies:
`deleteBatchSize = Math.min(deleteBatchSize, 10)` and
`receiveBatchSize = Math.min(receiveBatchSize, maxInFlight > 0 ? maxInFlight : 10, 10)`. -/
def clampOpts (o : Opts) : Opts :=
  { o with
    deleteBatchSize := min o.deleteBatchSize 10
    receiveBatchSize :=
      min o.receiveBatchSize (min (if o.maxInFlight > 0 then o.maxInFlight else 10) 10) }

/-- `_slotsAvailable()`:
`!this._opts.maxInFlight || this._inFlight <= this._opts.maxInFlight - this._opts.receiveBatchSize`.
`!maxInFlight` is JS falsiness of the number, i.e. `maxInFlight == 0`; the
subtraction is JS number subtraction, embedded on `Int`. -/
def slotsAvailable (o : Opts) (inFlight : Int) : Bool :=
  o.maxInFlight == 0 ||
    decide (inFlight ≤ (o.maxInFlight : Int) - (o.receiveBatchSize : Int))

/-- What `_getBatch`'s success continuation decides to do after a receive
completes (src/index.js lines 855-866). -/
inductive NextPoll where
  /-- `setTimeout(next, ms)` -/
  | after (ms : Nat)
  /-- `next()` -/
  | now
  /-- `this._paused = true; this.emit('maxInFlight')` -/
  | paused
  deriving Repr, DecidableEq

/-- The post-receive scheduling branch of `_getBatch` (lines 855-866): when
slots are available, schedule the next poll (immediately or after the
configured interval); otherwise pause and emit `maxInFlight`. -/
def afterReceive (o : Opts) (inFlight : Int) (gotMessages : Bool) :
    NextPoll × List Event :=
  if slotsAvailable o inFlight then
    if gotMessages && o.activePollIntervalMs != 0 then (.after o.activePollIntervalMs, [])
    else if !gotMessages && o.idlePollIntervalMs != 0 then (.after o.idlePollIntervalMs, [])
    else (.now, [])
  else (.paused, [Event.maxInFlight])

/-- An entry of the delete queue: `{ Id, ReceiptHandle }`. -/
structure DelEntry where
  Id : String
  ReceiptHandle : String
  deriving Repr, DecidableEq

/-- The mutable state of one `Squiss` instance that the claims touch.
`delTimerDue` is the absolute fire time of the armed delete debounce timer
(`this._delTimer`), `flushes` records the batches handed to
`_deleteMessages`, in call order, and `startPolls` counts the calls to
`_startPoller` (the disposal-driven resume path). -/
structure SquissState where
  opts : Opts
  running : Bool := false
  paused : Bool := false
  inFlight : Int := 0
  delQueue : List DelEntry := []
  delTimerDue : Option Int := none
  flushes : List (List DelEntry) := []
  events : List Event := []
  startPolls : Nat := 0
  deriving Repr, DecidableEq

/-- `handledMessage()` (src/index.js lines 669-678): decrement `_inFlight`;
if paused and slots are now free, un-pause and call `_startPoller()`; if
`_inFlight` is (JS-falsy, i.e.) zero, emit `drained`. -/
def handledMessage (s : SquissState) : SquissState :=
  let s1 : SquissState := { s with inFlight := s.inFlight - 1 }
  let s2 : SquissState :=
    if s1.paused && slotsAvailable s1.opts s1.inFlight then
      { s1 with paused := false, startPolls := s1.startPolls + 1 }
    else s1
  if s2.inFlight == 0 then { s2 with events := s2.events ++ [Event.drained] } else s2

/-- `deleteMessage(msg)` (src/index.js lines 608-629), on a `Message`
argument: push `{ Id: msg.raw.MessageId, ReceiptHandle: msg.raw.ReceiptHandle }`,
call `handledMessage()`, then either flush a full batch immediately
(clearing any pending debounce timer; `splice(0, n)` is `take`/`drop`) or
arm the debounce timer for `deleteWaitMs` when none is armed. -/
def deleteMessage (s : SquissState) (now : Int) (entry : DelEntry) : SquissState :=
  let s1 : SquissState := { s with delQueue := s.delQueue ++ [entry] }
  let s2 : SquissState := handledMessage s1
  if s2.delQueue.length ≥ s2.opts.deleteBatchSize then
    { s2 with
      delTimerDue := none
      delQueue := s2.delQueue.drop s2.opts.deleteBatchSize
      flushes := s2.flushes ++ [s2.delQueue.take s2.opts.deleteBatchSize] }
  else if s2.delTimerDue = none then
    { s2 with delTimerDue := some (now + (s2.opts.deleteWaitMs : Int)) }
  else s2

/-- The delete debounce timer callback (src/index.js lines 623-627): clear
the timer reference and flush the whole queue (`splice(0, length)`).  A fire
with no armed timer cannot happen in JS; it is a no-op here. -/
def delTimerFire (s : SquissState) : SquissState :=
  match s.delTimerDue with
  | none => s
  | some _ =>
    { s with delTimerDue := none, flushes := s.flushes ++ [s.delQueue], delQueue := [] }

/-- How the transport answers one `deleteMessageBatch` call. -/
inductive DelBatchOutcome where
  /-- The call succeeded; `failed` are the `Id`s SQS reported in `data.Failed`. -/
  | ok (failed : List String)
  /-- The call itself failed. -/
  | err (e : Err)
  deriving Repr, DecidableEq

/-- The continuation of `_deleteMessages(batch)` (src/index.js lines
794-807): emit `delError` per failed entry, or one `error` when the call
itself rejects.  No counter or queue is touched. -/
def deleteBatchComplete (s : SquissState) (o : DelBatchOutcome) : SquissState :=
  match o with
  | .ok failed => { s with events := s.events ++ failed.map Event.delError }
  | .err e => { s with events := s.events ++ [Event.error e] }

/-- `releaseMessage(msg)` (src/index.js lines 689-692): `handledMessage()`
then a `changeMessageVisibility(msg, 0)` network call whose outcome does not
touch the instance state. -/
def releaseMessage (s : SquissState) : SquissState :=
  handledMessage s

/-- The per-`Message` disposal state: its raw identifiers and the
`_handled` flag set by `del`/`keep`/`release` (src/Message.js). -/
structure MessageState where
  entry : DelEntry
  handled : Bool := false
  deriving Repr, DecidableEq

/-- The three disposal methods of `Message`. -/
inductive DisposeOp where
  | del
  | keep
  | release
  deriving Repr, DecidableEq

/-- One disposal call on a `Message` (src/Message.js lines 43-68): each of
`del`/`keep`/`release` is guarded by `if (!this._handled)` and sets
`_handled = true` after acting (`del` → `squiss.deleteMessage(this)`,
`keep` → `squiss.handledMessage()`, `release` → `squiss.releaseMessage(this)`). -/
def msgDispose (now : Int) (op : DisposeOp) (p : SquissState × MessageState) :
    SquissState × MessageState :=
  if p.2.handled then p
  else
    match op with
    | .del => (deleteMessage p.1 now p.2.entry, { p.2 with handled := true })
    | .keep => (handledMessage p.1, { p.2 with handled := true })
    | .release => (releaseMessage p.1, { p.2 with handled := true })

/-- A sequence of disposal calls on the same `Message`. -/
def runDisposals (now : Int) (p : SquissState × MessageState) (ops : List DisposeOp) :
    SquissState × MessageState :=
  ops.foldl (fun q op => msgDispose now op q) p

/-- Events driving the delete batcher: an enqueue (a `deleteMessage` call at
wall-clock time `now`) or the debounce timer firing. -/
inductive DelEvent where
  | enq (now : Int) (entry : DelEntry)
  | fire
  deriving Repr, DecidableEq

/-- One delete-batcher step. -/
def delStep (s : SquissState) : DelEvent → SquissState
  | .enq now e => deleteMessage s now e
  | .fire => delTimerFire s

/-- Run the delete batcher over a list of events. -/
def runDel (s : SquissState) (evs : List DelEvent) : SquissState :=
  evs.foldl delStep s

/-- The delete-queue invariant: a debounce timer is armed iff the queue is
non-empty and below the size threshold, and the queue length never reaches
`deleteBatchSize` between steps. -/
def delInv (s : SquissState) : Prop :=
  (s.delTimerDue ≠ none ↔ s.delQueue ≠ [] ∧ s.delQueue.length < s.opts.deleteBatchSize) ∧
    s.delQueue.length < s.opts.deleteBatchSize

instance (s : SquissState) : Decidable (delInv s) := by
  unfold delInv
  infer_instance

/-- One iteration of the `forEach` in `_emitMessages` (src/index.js lines
815-826) in the configuration where `Message` construction cannot throw
(`bodyFormat: "plain"`, `unwrapSns: false`): construct the `Message`,
increment `_inFlight`, emit the `message` event. -/
def deliverOne (p : SquissState × List MessageState) (r : DelEntry) :
    SquissState × List MessageState :=
  ({ p.1 with inFlight := p.1.inFlight + 1, events := p.1.events ++ [Event.message r.Id] },
   p.2 ++ [{ entry := r, handled := false }])

/-- The interleavings of C7: a completed receive delivering a batch, a
disposal call on the `i`-th delivered message, or a direct public call to
`handledMessage()`. -/
inductive FlightEvent where
  | receive (raws : List DelEntry)
  | dispose (i : Nat) (op : DisposeOp) (now : Int)
  | directHandled
  deriving Repr, DecidableEq

/-- One step of the message-lifecycle interleaving. -/
def flightStep (st : SquissState × List MessageState) :
    FlightEvent → SquissState × List MessageState
  | .receive raws => raws.foldl deliverOne st
  | .dispose i op now =>
    match st.2.get? i with
    | none => st
    | some m =>
      let q := msgDispose now op (st.1, m)
      (q.1, st.2.set i q.2)
  | .directHandled => (handledMessage st.1, st.2)

/-- Run a lifecycle trace from the constructor state. -/
def runFlight (o : Opts) (evs : List FlightEvent) : SquissState × List MessageState :=
  evs.foldl flightStep ({ opts := o }, [])

/-- The C7 accounting invariant: `inFlight` equals the number of delivered,
not-yet-disposed messages. -/
def FlightInv (st : SquissState × List MessageState) : Prop :=
  st.1.inFlight = (st.2.countP (fun m => !m.handled) : Int)

/-- The run-state flags of the poller that `start`/`stop` and the receive
continuations manipulate.  `activeReq` is the JS-truthiness of
`this._activeReq`. -/
structure PollerState where
  running : Bool := false
  paused : Bool := false
  activeReq : Bool := false
  deriving Repr, DecidableEq

/-- `stop(soft)` (src/index.js lines 778-784): when not soft and a receive
request is outstanding, call `this._activeReq.abort()`; then clear
`_running` and `_paused`.  The second component records whether `abort()`
was called. -/
def stopFn (s : PollerState) (soft : Bool) : PollerState × Bool :=
  ({ s with running := false, paused := false }, !soft && s.activeReq)

/-- `start()` (src/index.js lines 765-770): when not running, set `_running`
and call `_startPoller()`.  The second component records whether a poll was
triggered. -/
def startFn (s : PollerState) : PollerState × Bool :=
  if !s.running then ({ s with running := true }, true) else (s, false)

/-- The truthiness test `err.code && err.code === 'RequestAbortedError'` in
`_getBatch`'s catch (src/index.js line 869). -/
def isAbortCode (e : Err) : Bool :=
  match e.code with
  | some c => !(c == "") && c == "RequestAbortedError"
  | none => false

/-- The `.catch` continuation of `_getBatch` (src/index.js lines 867-875):
clear `_activeReq`; for an abort, emit `aborted` and schedule nothing; for
any other failure, schedule a retry poll after `pollRetryMs` and emit
`error`.  The last component is the delay of the poll scheduled by this
handler, if any. -/
def getBatchCatch (o : Opts) (s : PollerState) (err : Err) :
    PollerState × List Event × Option Nat :=
  let s1 : PollerState := { s with activeReq := false }
  if isAbortCode err then (s1, [Event.aborted], none)
  else (s1, [Event.error err], some o.pollRetryMs)

/-- The rejection the AWS SDK produces for an aborted request.  Modelled
from the collaborator contract: its `code` property is
`'RequestAbortedError'`. -/
def requestAbortedError (msg : String) : Err :=
  { code := some "RequestAbortedError", message := msg }

/-- `AWS_MAX_SEND_BATCH` (src/index.js line 431). -/
def AWS_MAX_SEND_BATCH : Nat := 10

/-- The batch-splitting loop of `sendMessages` (src/index.js lines
744-749): index `i` opens a new batch exactly when `i % AWS_MAX_SEND_BATCH == 0`,
i.e. the list is cut into consecutive chunks of `AWS_MAX_SEND_BATCH`. -/
def buildBatches {α : Type} : List α → List (List α)
  | [] => []
  | m :: rest =>
    (m :: rest.take (AWS_MAX_SEND_BATCH - 1)) ::
      buildBatches (rest.drop (AWS_MAX_SEND_BATCH - 1))
termination_by l => l.length
decreasing_by
  simp only [List.length_drop, List.length_cons]
  omega

/-- One entry of a `sendMessageBatch` request. -/
structure SendEntry (α : Type) where
  Id : String
  MessageBody : α
  deriving Repr, DecidableEq

/-- The `Entries` construction of `_sendMessageBatch` (src/index.js lines
899-907): entry `idx` of a batch starting at `start` gets
`Id: (start + idx).toString()`. -/
def sendMessageBatchEntries {α : Type} : List α → Nat → List (SendEntry α)
  | [], _ => []
  | m :: rest, start => ⟨toString start, m⟩ :: sendMessageBatchEntries rest (start + 1)

/-- `sendMessages` passes batch `idx` the start index
`idx * AWS_MAX_SEND_BATCH` (src/index.js line 751); equivalently the start
index advances by `AWS_MAX_SEND_BATCH` per batch. -/
def sendBatchesEntries {α : Type} : List (List α) → Nat → List (List (SendEntry α))
  | [], _ => []
  | b :: bs, start =>
    sendMessageBatchEntries b start :: sendBatchesEntries bs (start + AWS_MAX_SEND_BATCH)

/-- The entry lists of all batch requests issued by `sendMessages msgs`. -/
def sendMessagesEntries {α : Type} (msgs : List α) : List (List (SendEntry α)) :=
  sendBatchesEntries (buildBatches msgs) 0

/-- The per-call result shape of `sendMessageBatch`. -/
structure SendBatchResult (β : Type) where
  Successful : List β
  Failed : List β
  deriving Repr, DecidableEq

/-- The merge loop of `sendMessages` (src/index.js lines 752-759): push
every chunk's `Successful` and `Failed` entries, in chunk order. -/
def mergeResults {β : Type} (results : List (SendBatchResult β)) : SendBatchResult β :=
  { Successful := (results.map SendBatchResult.Successful).flatten
    Failed := (results.map SendBatchResult.Failed).flatten }

/-- `MAX_MESSAGE_AGE_MS` (TimeoutExtender module, line 12): the maximum age
at which AWS still accepts a VisibilityTimeout extension. -/
def MAX_MESSAGE_AGE_MS : Nat := 43200000

/-- A raw SQS message as returned by the transport. -/
structure RawMsg where
  MessageId : String
  ReceiptHandle : String
  Body : String
  deriving Repr, DecidableEq

/-- The SNS envelope fields the `Message` constructor reads from the parsed
body (`Message`, `Subject`, `TopicArn`). -/
structure SnsEnvelope where
  Message : String
  Subject : String
  TopicArn : String
  deriving Repr, DecidableEq

/-- The decoded message body: the raw string for "plain"/unknown formats,
or the parsed value (of the abstract parsed type `J`) for "json". -/
inductive BodyVal (J : Type) where
  | plain (s : String)
  | json (j : J)
  deriving Repr, DecidableEq

/-- `Message._formatMessage(msg, format)` (src/Message.js lines 85-90):
"json" runs `JSON.parse` (`none` models the throw on invalid JSON); any
other format returns the message unchanged.  The parser is the injected
`JSON.parse` collaborator. -/
def formatMessage {J : Type} (parse : String → Option J) (msg : String)
    (format : String) : Option (BodyVal J) :=
  match format with
  | "json" => (parse msg).map BodyVal.json
  | _ => some (BodyVal.plain msg)

/-- `TopicArn.substr(TopicArn.lastIndexOf(':') + 1)` (src/Message.js line
33): the suffix after the last colon (the whole string when there is no
colon). -/
def topicNameOf (arn : String) : String :=
  ((arn.splitOn ":").getLast?).getD arn

/-- The fields of a constructed `Message` (src/Message.js lines 25-38). -/
structure MessageVal (J : Type) where
  raw : RawMsg
  body : BodyVal J
  subject : Option String := none
  topicArn : Option String := none
  topicName : Option String := none
  deriving Repr, DecidableEq

/-- The `Message` constructor (src/Message.js lines 25-38): `none` models
the constructor throwing, which happens exactly when a `JSON.parse` call
fails — the envelope parse when `unwrapSns`, or the body parse when
`bodyFormat` is "json".  `snsOf` models property access on the parsed
envelope object. -/
def messageCtor {J : Type} (parse : String → Option J) (snsOf : J → SnsEnvelope)
    (unwrapSns : Bool) (bodyFormat : String) (msg : RawMsg) : Option (MessageVal J) :=
  if unwrapSns then
    match parse msg.Body with
    | none => none
    | some j =>
      (formatMessage parse (snsOf j).Message bodyFormat).map fun b =>
        { raw := msg, body := b, subject := some (snsOf j).Subject,
          topicArn := some (snsOf j).TopicArn,
          topicName := some (topicNameOf (snsOf j).TopicArn) }
  else
    (formatMessage parse msg.Body bodyFormat).map fun b => { raw := msg, body := b }

/-- `_emitMessages(messages)` (src/index.js lines 815-826): `forEach` over
the batch, constructing each `Message`, incrementing `_inFlight` and
emitting `message`; a constructor throw aborts the loop, leaving the
partial increments and emissions in place (`Except.error` carries them). -/
def emitMessages {J : Type} (parse : String → Option J) (snsOf : J → SnsEnvelope)
    (unwrapSns : Bool) (bodyFormat : String) :
    List RawMsg → Int → List Event → Except (Int × List Event) (Int × List Event)
  | [], inFlight, evs => .ok (inFlight, evs)
  | m :: rest, inFlight, evs =>
    match messageCtor parse snsOf unwrapSns bodyFormat m with
    | none => .error (inFlight, evs)
    | some mv =>
      emitMessages parse snsOf unwrapSns bodyFormat rest (inFlight + 1)
        (evs ++ [Event.message mv.raw.MessageId])

/-- The `SyntaxError` a failed `JSON.parse` throws: it has no `code`
property.  Modelled from the JS runtime collaborator. -/
def syntaxError : Err := { code := none, message := "Unexpected token in JSON" }

/-- What `_getBatch` schedules after one receive settles. -/
inductive PollOutcome where
  /-- The success path's scheduling decision (lines 855-866). -/
  | next (np : NextPoll)
  /-- The catch path's `setTimeout(next, pollRetryMs)` (line 872). -/
  | retryAfter (ms : Nat)
  /-- The catch path's abort branch: nothing is scheduled (line 870). -/
  | abortedStop
  deriving Repr, DecidableEq

/-- One settled receive of `_getBatch` (src/index.js lines 845-875): the
`then` callback emits `gotMessages`/`queueEmpty` and delivers the batch via
`_emitMessages`; a throw inside that callback rejects the chain and lands
in the same `.catch` as a receive failure, where a `SyntaxError` (its
`code` is `undefined`) takes the generic branch — emit `error` and schedule
a retry after `pollRetryMs`.  `data` is `none` when the response has no
`Messages` field.  Returns the new `inFlight`, the emitted events, and the
scheduling outcome. -/
def receiveRound {J : Type} (o : Opts) (parse : String → Option J)
    (snsOf : J → SnsEnvelope) (unwrapSns : Bool) (bodyFormat : String)
    (data : Except Err (Option (List RawMsg))) (inFlight : Int) :
    Int × List Event × PollOutcome :=
  match data with
  | .error err =>
    if isAbortCode err then (inFlight, [Event.aborted], .abortedStop)
    else (inFlight, [Event.error err], .retryAfter o.pollRetryMs)
  | .ok none =>
    let r := afterReceive o inFlight false
    (inFlight, Event.queueEmpty :: r.2, .next r.1)
  | .ok (some msgs) =>
    match emitMessages parse snsOf unwrapSns bodyFormat msgs inFlight
        [Event.gotMessages msgs.length] with
    | .ok (inF, evs) =>
      let r := afterReceive o inF true
      (inF, evs ++ r.2, .next r.1)
    | .error (inF, evs) =>
      (inF, evs ++ [Event.error syntaxError], .retryAfter o.pollRetryMs)

namespace TimeoutExtender

/-- TimeoutExtender options (its `optDefaults`, lines 18-22). -/
structure TOpts where
  visibilityTimeoutSecs : Nat := 30
  noExtensionsAfterSecs : Nat := 43200
  advancedCallMs : Nat := 5000
  deriving Repr, DecidableEq

/-- `this._visTimeout = this._opts.visibilityTimeoutSecs * 1000` (line 66). -/
def visTimeout (o : TOpts) : Nat := o.visibilityTimeoutSecs * 1000

/-- `this._stopAfter = Math.min(noExtensionsAfterSecs * 1000, MAX_MESSAGE_AGE_MS)`
(line 67). -/
def stopAfter (o : TOpts) : Nat := min (o.noExtensionsAfterSecs * 1000) MAX_MESSAGE_AGE_MS

/-- `this._apiLeadMs = Math.min(advancedCallMs, visTimeout)` (line 68). -/
def apiLeadMs (o : TOpts) : Nat := min o.advancedCallMs (visTimeout o)

/-- A tracker node `{ message, receivedOn, timerOn }`; the message is
identified by its `MessageId`. -/
structure TNode where
  msgId : String
  receivedOn : Int
  timerOn : Int
  deriving Repr, DecidableEq

/-- The tracker: the doubly linked list as a Lean list (head first, tail
last; the id → node hash map is the derived lookup by `msgId`), plus the
events emitted on the owning Squiss instance. -/
structure ExtState where
  nodes : List TNode := []
  events : List Event := []
  deriving Repr, DecidableEq

/-- `_addNode` (lines 99-110): append at the tail (the node becomes head
when the list was empty). -/
def addNode (s : ExtState) (n : TNode) : ExtState :=
  { s with nodes := s.nodes ++ [n] }

/-- `_deleteNode` (lines 118-132): unlink the node (head, tail or middle)
and drop it from the index. -/
def deleteNode (s : ExtState) (id : String) : ExtState :=
  { s with nodes := s.nodes.eraseP (fun n => n.msgId == id) }

/-- `addMessage(message)` (lines 75-82): track a node with
`timerOn = now + visTimeout − apiLeadMs`. -/
def addMessage (o : TOpts) (now : Int) (id : String) (s : ExtState) : ExtState :=
  addNode s
    { msgId := id, receivedOn := now,
      timerOn := now + (visTimeout o : Int) - (apiLeadMs o : Int) }

/-- `deleteMessage(message)` (lines 88-91): look up by id; no-op when
untracked. -/
def deleteMessage (s : ExtState) (id : String) : ExtState :=
  if (s.nodes.find? (fun n => n.msgId == id)).isSome then deleteNode s id else s

/-- `_getNodeAge(node)` (lines 141-143): `Date.now() − receivedOn + apiLeadMs`. -/
def getNodeAge (o : TOpts) (now : Int) (n : TNode) : Int :=
  now - n.receivedOn + (apiLeadMs o : Int)

/-- `extendByMs = Math.min(visTimeout, MAX_MESSAGE_AGE_MS − age)` (line 172). -/
def extendByMs (o : TOpts) (now : Int) (n : TNode) : Int :=
  min (visTimeout o : Int) ((MAX_MESSAGE_AGE_MS : Int) - getNodeAge o now n)

/-- `extendBySecs = Math.floor(extendByMs / 1000)` (line 173); `Math.floor`
on a possibly negative number is flooring division. -/
def extendBySecs (o : TOpts) (now : Int) (n : TNode) : Int :=
  Int.fdiv (extendByMs o now n) 1000

/-- The synchronous part of `_renewNode(node)` (lines 171-173 and 184-186):
compute the extension, issue the `changeMessageVisibility(node.message,
extendBySecs)` call, unlink the node, set
`timerOn = Date.now() + extendBySecs * 1000` and re-append it at the tail.
Returns the seconds of the issued call; its promise continuation is
`renewComplete`. -/
def renewNodeSync (o : TOpts) (now : Int) (node : TNode) (s : ExtState) :
    ExtState × Int :=
  let secs := extendBySecs o now node
  let s1 := deleteNode s node.msgId
  (addNode s1 { node with timerOn := now + secs * 1000 }, secs)

/-- The regex `/Message does not exist or is not available/` tested against
`err.message` (line 177). -/
def msgGonePattern : String := "Message does not exist or is not available"

/-- `err.message.match(msgGonePattern)` truthiness: the pattern occurs as a
substring of the message. -/
def matchesMsgGone (e : Err) : Bool :=
  decide (msgGonePattern.toList <:+: e.message.toList)

/-- The outcome of one lease-renewal (`changeMessageVisibility`) call. -/
inductive RenewOutcome where
  | ok
  | fail (e : Err)
  deriving Repr, DecidableEq

/-- The `.then`/`.catch` continuation of the renewal call (lines 175-183),
applied to the tracker state current when the promise settles: success
emits `timeoutExtended`; a failure matching the "message gone" pattern
unlinks the node and emits one `autoExtendFail` carrying the message and
the error; any other failure emits a generic `error` and leaves the tracker
untouched. -/
def renewComplete (node : TNode) (out : RenewOutcome) (s : ExtState) : ExtState :=
  match out with
  | .ok => { s with events := s.events ++ [Event.timeoutExtended node.msgId] }
  | .fail e =>
    if matchesMsgGone e then
      { deleteNode s node.msgId with
        events := s.events ++ [Event.autoExtendFail node.msgId e] }
    else
      { s with events := s.events ++ [Event.error e] }

/-- The timer callback armed by `_headChanged` (lines 157-160), firing at
time `now` on the head node: at or past the age cutoff the node is retired
without renewal, otherwise `_renewNode` runs.  The second component is the
seconds of the renewal call issued, if any. -/
def timerFire (o : TOpts) (now : Int) (s : ExtState) : ExtState × Option Int :=
  match s.nodes with
  | [] => (s, none)
  | node :: _ =>
    if getNodeAge o now node ≥ (stopAfter o : Int) then (deleteNode s node.msgId, none)
    else
      let r := renewNodeSync o now node s
      (r.1, some r.2)

/-- The message age reached when the visibility granted by a renewal at
time `now` lapses: the current age `now − receivedOn` plus the granted
extension `extendBySecs * 1000`. -/
def extendedAge (o : TOpts) (now : Int) (n : TNode) : Int :=
  (now - n.receivedOn) + extendBySecs o now n * 1000

end TimeoutExtender

/-- C1: a new receive poll is permitted exactly when `maxInFlight = 0` or
`inFlight ≤ maxInFlight − receiveBatchSize` (the `_slotsAvailable`
predicate); `maxInFlight = 0` disables the cap entirely, and when
`maxInFlight > 0` the post-receive branch pauses polling exactly when
`inFlight > maxInFlight − receiveBatchSize`. -/
theorem slotsAvailable_characterization (o : Opts) (inFlight : Int) (g : Bool) :
    (slotsAvailable o inFlight = true ↔
      o.maxInFlight = 0 ∨ inFlight ≤ (o.maxInFlight : Int) - (o.receiveBatchSize : Int)) ∧
    (o.maxInFlight = 0 → slotsAvailable o inFlight = true) ∧
    (0 < o.maxInFlight →
      ((afterReceive o inFlight g).1 = NextPoll.paused ↔
        (o.maxInFlight : Int) - (o.receiveBatchSize : Int) < inFlight)) := by
  refine ⟨?_, ?_, ?_⟩
  · simp [slotsAvailable]
  · intro h
    simp [slotsAvailable, h]
  · intro h
    unfold afterReceive
    by_cases hs : slotsAvailable o inFlight = true
    · have hle : inFlight ≤ (o.maxInFlight : Int) - (o.receiveBatchSize : Int) := by
        rcases (by simpa [slotsAvailable] using hs :
          o.maxInFlight = 0 ∨ inFlight ≤ (o.maxInFlight : Int) - (o.receiveBatchSize : Int)) with h0 | hle
        · omega
        · exact hle
      simp only [hs, if_true]
      constructor
      · intro hcontra
        by_cases hg : g && o.activePollIntervalMs != 0
        · simp [hg] at hcontra
        · by_cases hi : !g && o.idlePollIntervalMs != 0
          · simp [hg, hi] at hcontra
          · simp [hg, hi] at hcontra
      · intro hlt
        omega
    · have : ¬ (inFlight ≤ (o.maxInFlight : Int) - (o.receiveBatchSize : Int)) := by
        intro hle
        exact hs (by simp [slotsAvailable, hle])
      simp only [hs, if_false]
      constructor
      · intro _
        omega
      · intro _
        rfl

/-- Witness for `slotsAvailable_characterization` at a concrete input. -/
theorem slotsAvailable_characterization_witness :
    slotsAvailable { maxInFlight := 0 } 5000 = true :=
  (slotsAvailable_characterization { maxInFlight := 0 } 5000 true).2.1 rfl

theorem msgDispose_handled (now : Int) (op : DisposeOp)
    (p : SquissState × MessageState) (h : p.2.handled = true) :
    msgDispose now op p = p := by
  simp [msgDispose, h]

theorem runDisposals_handled (now : Int) (p : SquissState × MessageState)
    (h : p.2.handled = true) (ops : List DisposeOp) :
    runDisposals now p ops = p := by
  induction ops with
  | nil => rfl
  | cons op ops ih =>
    show runDisposals now (msgDispose now op p) ops = p
    rw [msgDispose_handled now op p h]
    exact ih

theorem msgDispose_sets_handled (now : Int) (op : DisposeOp)
    (p : SquissState × MessageState) (h : p.2.handled = false) :
    (msgDispose now op p).2.handled = true := by
  cases op <;> simp [msgDispose, h]

theorem handledMessage_inFlight (s : SquissState) :
    (handledMessage s).inFlight = s.inFlight - 1 := by
  unfold handledMessage
  by_cases h1 : s.paused && slotsAvailable s.opts (s.inFlight - 1)
  · by_cases h2 : s.inFlight - 1 == 0 <;> simp [h1, h2]
  · by_cases h2 : s.inFlight - 1 == 0 <;> simp [h1, h2]

theorem deleteMessage_inFlight (s : SquissState) (now : Int) (entry : DelEntry) :
    (deleteMessage s now entry).inFlight = s.inFlight - 1 := by
  unfold deleteMessage
  dsimp only
  split
  · simpa using handledMessage_inFlight { s with delQueue := s.delQueue ++ [entry] }
  · split
    · simpa using handledMessage_inFlight { s with delQueue := s.delQueue ++ [entry] }
    · simpa using handledMessage_inFlight { s with delQueue := s.delQueue ++ [entry] }

theorem msgDispose_inFlight_fresh (now : Int) (op : DisposeOp)
    (p : SquissState × MessageState) (h : p.2.handled = false) :
    (msgDispose now op p).1.inFlight = p.1.inFlight - 1 := by
  cases op <;>
    simp [msgDispose, h, releaseMessage, handledMessage_inFlight, deleteMessage_inFlight]

/-- C2: on any `Message`, only the first of a sequence of `del`/`keep`/`release`
calls takes effect — the state after the whole sequence equals the state
after just the first call, every later call is a no-op, and the in-flight
counter is decremented exactly once (every effectful branch reaches
`handledMessage` exactly once). -/
theorem dispose_first_call_only (now : Int) (s : SquissState) (e : DelEntry)
    (op : DisposeOp) (ops : List DisposeOp) :
    runDisposals now (s, { entry := e, handled := false }) (op :: ops) =
      msgDispose now op (s, { entry := e, handled := false }) ∧
    (runDisposals now (s, { entry := e, handled := false }) (op :: ops)).1.inFlight =
      s.inFlight - 1 ∧
    (runDisposals now (s, { entry := e, handled := false }) (op :: ops)).2.handled = true := by
  have hfresh : (s, ({ entry := e, handled := false } : MessageState)).2.handled = false := rfl
  have hset := msgDispose_sets_handled now op (s, { entry := e, handled := false }) hfresh
  have hrun : runDisposals now (s, { entry := e, handled := false }) (op :: ops) =
      msgDispose now op (s, { entry := e, handled := false }) := by
    show runDisposals now (msgDispose now op (s, { entry := e, handled := false })) ops = _
    exact runDisposals_handled now _ hset ops
  refine ⟨hrun, ?_, ?_⟩
  · rw [hrun]
    exact msgDispose_inFlight_fresh now op (s, { entry := e, handled := false }) hfresh
  · rw [hrun]
    exact hset

/-- Witness for `dispose_first_call_only`: delete-keep-delete on one message
decrements in-flight once, from 1 to 0. -/
theorem dispose_first_call_only_witness :
    (runDisposals 0 ({ opts := {}, inFlight := 1 }, { entry := ⟨"id0", "rh0"⟩, handled := false })
      [DisposeOp.del, DisposeOp.keep, DisposeOp.del]).1.inFlight = 1 - 1 :=
  (dispose_first_call_only 0 { opts := {}, inFlight := 1 } ⟨"id0", "rh0"⟩
    DisposeOp.del [DisposeOp.keep, DisposeOp.del]).2.1

theorem handledMessage_opts (s : SquissState) : (handledMessage s).opts = s.opts := by
  unfold handledMessage
  dsimp only
  split <;> split <;> rfl

theorem handledMessage_delQueue (s : SquissState) :
    (handledMessage s).delQueue = s.delQueue := by
  unfold handledMessage
  dsimp only
  split <;> split <;> rfl

theorem handledMessage_delTimerDue (s : SquissState) :
    (handledMessage s).delTimerDue = s.delTimerDue := by
  unfold handledMessage
  dsimp only
  split <;> split <;> rfl

theorem handledMessage_flushes (s : SquissState) :
    (handledMessage s).flushes = s.flushes := by
  unfold handledMessage
  dsimp only
  split <;> split <;> rfl

/-- Full description of the delete-queue fields after `deleteMessage`:
with `q := delQueue ++ [entry]`, either a full batch is flushed (timer
cleared, `take`/`drop` split) or the entry just sits in the queue with the
debounce timer armed for `now + deleteWaitMs` exactly when none was armed. -/
theorem deleteMessage_spec (s : SquissState) (now : Int) (entry : DelEntry) :
    ((s.delQueue ++ [entry]).length ≥ s.opts.deleteBatchSize →
      (deleteMessage s now entry).delQueue =
          (s.delQueue ++ [entry]).drop s.opts.deleteBatchSize ∧
        (deleteMessage s now entry).delTimerDue = none ∧
        (deleteMessage s now entry).flushes =
          s.flushes ++ [(s.delQueue ++ [entry]).take s.opts.deleteBatchSize]) ∧
    ((s.delQueue ++ [entry]).length < s.opts.deleteBatchSize →
      (deleteMessage s now entry).delQueue = s.delQueue ++ [entry] ∧
        (deleteMessage s now entry).flushes = s.flushes ∧
        (deleteMessage s now entry).delTimerDue =
          (if s.delTimerDue = none then some (now + (s.opts.deleteWaitMs : Int))
           else s.delTimerDue)) ∧
    (deleteMessage s now entry).opts = s.opts := by
  unfold deleteMessage
  dsimp only
  simp only [handledMessage_delQueue, handledMessage_opts, handledMessage_delTimerDue,
    handledMessage_flushes]
  by_cases h1 : (s.delQueue ++ [entry]).length ≥ s.opts.deleteBatchSize
  · rw [if_pos h1]
    exact ⟨fun _ => ⟨rfl, rfl, rfl⟩, fun h2 => absurd h1 (by omega), rfl⟩
  · rw [if_neg h1]
    by_cases h2 : s.delTimerDue = none
    · rw [if_pos h2]
      refine ⟨fun hc => absurd hc h1, fun _ => ⟨rfl, rfl, ?_⟩, rfl⟩
      rw [if_pos h2]
    · rw [if_neg h2]
      refine ⟨fun hc => absurd hc h1, fun _ => ⟨?_, ?_, ?_⟩, ?_⟩
      · exact handledMessage_delQueue _
      · exact handledMessage_flushes _
      · rw [if_neg h2]
        exact handledMessage_delTimerDue _
      · exact handledMessage_opts _

theorem delInv_preserved (s : SquissState) (ev : DelEvent) (h : delInv s) :
    delInv (delStep s ev) := by
  obtain ⟨hiff, hlen⟩ := h
  cases ev with
  | enq now e =>
    show delInv (deleteMessage s now e)
    obtain ⟨hflush, hkeep, hopts⟩ := deleteMessage_spec s now e
    by_cases h1 : (s.delQueue ++ [e]).length ≥ s.opts.deleteBatchSize
    · obtain ⟨hq, ht, _⟩ := hflush h1
      have hqlen : (s.delQueue ++ [e]).length = s.opts.deleteBatchSize := by
        rw [List.length_append] at h1 ⊢
        simp only [List.length_singleton] at h1 ⊢
        omega
      have hq' : (deleteMessage s now e).delQueue = [] := by
        rw [hq, List.drop_eq_nil_iff]
        omega
      constructor
      · rw [ht, hq', hopts]
        simp
      · rw [hq', hopts]
        simp only [List.length_nil]
        omega
    · push_neg at h1
      obtain ⟨hq, _, ht⟩ := hkeep h1
      constructor
      · rw [ht, hq, hopts]
        by_cases h2 : s.delTimerDue = none
        · rw [if_pos h2]
          exact ⟨fun _ => ⟨by simp, h1⟩, fun _ => by simp⟩
        · rw [if_neg h2]
          exact ⟨fun _ => ⟨by simp, h1⟩, fun _ => h2⟩
      · rw [hq, hopts]
        exact h1
  | fire =>
    show delInv (delTimerFire s)
    unfold delTimerFire
    cases hd : s.delTimerDue with
    | none => exact ⟨hiff, hlen⟩
    | some d =>
      refine ⟨by simp, ?_⟩
      show ([] : List DelEntry).length < s.opts.deleteBatchSize
      simp only [List.length_nil]
      omega

theorem delInv_runDel (s : SquissState) (h : delInv s) (evs : List DelEvent) :
    delInv (runDel s evs) := by
  induction evs generalizing s with
  | nil => exact h
  | cons ev evs ih => exact ih (delStep s ev) (delInv_preserved s ev h)

/-- C4: delete batching.  From the constructor state and over every event
sequence, the invariant holds: a debounce timer is armed iff the queue is
non-empty and below `deleteBatchSize`, and the queue never reaches
`deleteBatchSize` between steps.  Moreover (i) an enqueue that fills the
queue to `deleteBatchSize` flushes immediately and cancels any pending
timer, (ii) the first enqueue into an empty queue arms the timer for
`now + deleteWaitMs`, (iii) an enqueue below the threshold never re-arms an
armed timer (no duplicate timer), and (iv) a timer fire flushes exactly
what is queued. -/
theorem delete_batching (o : Opts) (hbs : 0 < o.deleteBatchSize)
    (evs : List DelEvent) (s : SquissState) (now d : Int) (e : DelEntry) :
    delInv (runDel { opts := o } evs) ∧
    ((s.delQueue ++ [e]).length ≥ s.opts.deleteBatchSize →
      (deleteMessage s now e).delTimerDue = none ∧
      (deleteMessage s now e).flushes =
        s.flushes ++ [(s.delQueue ++ [e]).take s.opts.deleteBatchSize]) ∧
    (s.delQueue = [] → s.delTimerDue = none → 1 < s.opts.deleteBatchSize →
      (deleteMessage s now e).delTimerDue = some (now + (s.opts.deleteWaitMs : Int))) ∧
    (s.delTimerDue = some d → (s.delQueue ++ [e]).length < s.opts.deleteBatchSize →
      (deleteMessage s now e).delTimerDue = some d) ∧
    (s.delTimerDue = some d →
      delTimerFire s =
        { s with delTimerDue := none, flushes := s.flushes ++ [s.delQueue], delQueue := [] }) := by
  refine ⟨?_, ?_, ?_, ?_, ?_⟩
  · refine delInv_runDel { opts := o } ⟨?_, ?_⟩ evs
    · simp
    · simpa using hbs
  · intro h1
    obtain ⟨hq, ht, hf⟩ := (deleteMessage_spec s now e).1 h1
    exact ⟨ht, hf⟩
  · intro hq ht hbs2
    have hlt : (s.delQueue ++ [e]).length < s.opts.deleteBatchSize := by
      rw [hq]
      simpa using hbs2
    obtain ⟨_, _, ht'⟩ := (deleteMessage_spec s now e).2.1 hlt
    rw [ht', ht]
    simp
  · intro ht hlt
    obtain ⟨_, _, ht'⟩ := (deleteMessage_spec s now e).2.1 hlt
    rw [ht', ht]
    simp
  · intro ht
    unfold delTimerFire
    rw [ht]

/-- Witness for `delete_batching` at a concrete run: two enqueues below the
threshold and a timer fire. -/
theorem delete_batching_witness :
    delInv (runDel { opts := { deleteBatchSize := 3 } }
      [DelEvent.enq 0 ⟨"a", "ra"⟩, DelEvent.enq 1 ⟨"b", "rb"⟩, DelEvent.fire]) :=
  (delete_batching { deleteBatchSize := 3 } (by decide)
    [DelEvent.enq 0 ⟨"a", "ra"⟩, DelEvent.enq 1 ⟨"b", "rb"⟩, DelEvent.fire]
    { opts := { deleteBatchSize := 3 } } 0 0 ⟨"a", "ra"⟩).1

theorem list_set_self (l : List MessageState) (i : Nat) (m : MessageState)
    (h : l.get? i = some m) : l.set i m = l := by
  induction l generalizing i with
  | nil => simp at h
  | cons a l ih =>
    cases i with
    | zero =>
      simp only [List.get?_cons_zero, Option.some_inj] at h
      rw [h]
      rfl
    | succ i =>
      simp only [List.get?_cons_succ] at h
      simp [List.set, ih i h]

theorem countP_set_handled (l : List MessageState) (i : Nat) (m m' : MessageState)
    (h : l.get? i = some m) (hm : m.handled = false) (hm' : m'.handled = true) :
    (l.set i m').countP (fun x => !x.handled) + 1 = l.countP (fun x => !x.handled) := by
  induction l generalizing i with
  | nil => simp at h
  | cons a l ih =>
    cases i with
    | zero =>
      simp only [List.get?_cons_zero, Option.some_inj] at h
      subst h
      simp [List.set, List.countP_cons, hm, hm']
    | succ i =>
      simp only [List.get?_cons_succ] at h
      simp only [List.set, List.countP_cons]
      have := ih i h
      omega

theorem deliverOne_inv (p : SquissState × List MessageState) (r : DelEntry)
    (h : FlightInv p) : FlightInv (deliverOne p r) := by
  unfold FlightInv deliverOne at *
  simp only [List.countP_append, List.countP_cons, List.countP_nil]
  push_cast
  simp only [Bool.not_false]
  rw [h]
  push_cast
  ring

theorem flightInv_preserved (st : SquissState × List MessageState) (ev : FlightEvent)
    (hev : ev ≠ FlightEvent.directHandled) (h : FlightInv st) :
    FlightInv (flightStep st ev) := by
  cases ev with
  | receive raws =>
    show FlightInv (raws.foldl deliverOne st)
    induction raws generalizing st with
    | nil => exact h
    | cons r raws ih => exact ih (deliverOne st r) (deliverOne_inv st r h) (by simp)
  | dispose i op now =>
    show FlightInv (match st.2.get? i with
      | none => st
      | some m => ((msgDispose now op (st.1, m)).1, st.2.set i (msgDispose now op (st.1, m)).2))
    cases hg : st.2.get? i with
    | none => exact h
    | some m =>
      by_cases hm : m.handled = true
      · have hd := msgDispose_handled now op (st.1, m) hm
        simp only [hd]
        unfold FlightInv
        rw [list_set_self st.2 i m hg]
        exact h
      · have hm' : m.handled = false := by
          cases hmm : m.handled
          · rfl
          · exact absurd hmm hm
        have hfl : (msgDispose now op (st.1, m)).1.inFlight = st.1.inFlight - 1 :=
          msgDispose_inFlight_fresh now op (st.1, m) hm'
        have hst := msgDispose_sets_handled now op (st.1, m) hm'
        dsimp only
        unfold FlightInv
        dsimp only
        rw [hfl]
        have hcount := countP_set_handled st.2 i m (msgDispose now op (st.1, m)).2 hg hm' hst
        unfold FlightInv at h
        omega
  | directHandled => exact absurd rfl hev

theorem flightInv_run (st : SquissState × List MessageState) (evs : List FlightEvent)
    (h : ∀ ev ∈ evs, ev ≠ FlightEvent.directHandled) (hbase : FlightInv st) :
    FlightInv (evs.foldl flightStep st) := by
  induction evs generalizing st with
  | nil => exact hbase
  | cons ev evs ih =>
    exact ih (flightStep st ev)
      (fun e he => h e (List.mem_cons_of_mem ev he))
      (flightInv_preserved st ev (h ev (List.mem_cons_self ev evs)) hbase)

/-- C7 (amended): for every interleaving of receive completions and
per-`Message` disposal calls — but with no extraneous direct public call to
`handledMessage()` — `inFlight` equals the number of undisposed delivered
messages, so `0 ≤ inFlight` in every reachable state and each `Message`
decrements it exactly once. -/
theorem inFlight_nonneg_without_direct_calls (o : Opts) (evs : List FlightEvent)
    (h : ∀ ev ∈ evs, ev ≠ FlightEvent.directHandled) :
    FlightInv (runFlight o evs) ∧ 0 ≤ (runFlight o evs).1.inFlight := by
  have hinv : FlightInv (runFlight o evs) := by
    unfold runFlight
    refine flightInv_run ({ opts := o }, []) evs h ?_
    unfold FlightInv
    simp
  refine ⟨hinv, ?_⟩
  rw [hinv]
  positivity

/-- Witness for `inFlight_nonneg_without_direct_calls`: receive two, dispose
one. -/
theorem inFlight_nonneg_without_direct_calls_witness :
    0 ≤ (runFlight {}
      [FlightEvent.receive [⟨"a", "ra"⟩, ⟨"b", "rb"⟩],
       FlightEvent.dispose 0 DisposeOp.del 5]).1.inFlight :=
  (inFlight_nonneg_without_direct_calls {}
    [FlightEvent.receive [⟨"a", "ra"⟩, ⟨"b", "rb"⟩],
     FlightEvent.dispose 0 DisposeOp.del 5] (by decide)).2

/-- C7 counterexample: the claim extends the invariant `0 ≤ inFlight` to
interleavings that include direct public calls to `handledMessage()`, but
that decrement is unguarded (`this._inFlight--`), so one direct call on a
fresh instance drives the counter to −1. -/
theorem inFlight_negative_after_direct_call :
    ¬ (0 ≤ (runFlight {} [FlightEvent.directHandled]).1.inFlight) := by
  decide

/-- C8: `deleteMessage` appends the `(Id, ReceiptHandle)` pair to the delete
queue and decrements `inFlight` in the same synchronous step; the network
delete-batch completion (whatever its outcome) touches neither `inFlight`
nor the queue, and `keep`/`release` likewise decrement without any
dependence on a network result. -/
theorem deleteMessage_eager_decrement (s : SquissState) (now : Int) (e : DelEntry)
    (out : DelBatchOutcome) :
    (deleteMessage s now e).inFlight = s.inFlight - 1 ∧
    ((s.delQueue ++ [e]).length < s.opts.deleteBatchSize →
      (deleteMessage s now e).delQueue = s.delQueue ++ [e]) ∧
    ((s.delQueue ++ [e]).length ≥ s.opts.deleteBatchSize →
      (deleteMessage s now e).flushes =
        s.flushes ++ [(s.delQueue ++ [e]).take s.opts.deleteBatchSize] ∧
      (deleteMessage s now e).delQueue = (s.delQueue ++ [e]).drop s.opts.deleteBatchSize) ∧
    (deleteBatchComplete s out).inFlight = s.inFlight ∧
    (deleteBatchComplete s out).delQueue = s.delQueue ∧
    (releaseMessage s).inFlight = s.inFlight - 1 ∧
    (handledMessage s).inFlight = s.inFlight - 1 := by
  refine ⟨deleteMessage_inFlight s now e, ?_, ?_, ?_, ?_, ?_, handledMessage_inFlight s⟩
  · intro h1
    exact ((deleteMessage_spec s now e).2.1 h1).1
  · intro h1
    obtain ⟨hq, _, hf⟩ := (deleteMessage_spec s now e).1 h1
    exact ⟨hf, hq⟩
  · cases out <;> rfl
  · cases out <;> rfl
  · exact handledMessage_inFlight s

/-- Witness for `deleteMessage_eager_decrement` at a concrete input. -/
theorem deleteMessage_eager_decrement_witness :
    (deleteMessage { opts := {}, inFlight := 4 } 0 ⟨"a", "ra"⟩).delQueue =
      [] ++ [(⟨"a", "ra"⟩ : DelEntry)] :=
  (deleteMessage_eager_decrement { opts := {}, inFlight := 4 } 0 ⟨"a", "ra"⟩
    (DelBatchOutcome.ok [])).2.1 (by decide)

/-- C6: a hard (non-soft) `stop()` aborts any outstanding receive; the
resulting rejection reaches the application as exactly one `aborted` event,
never as an `error` event, and the catch handler schedules no further poll;
polling resumes only when `start()` is called again on the
stopped instance, which does trigger a poll. -/
theorem hard_stop_aborts (o : Opts) (s : PollerState) (msg : String)
    (hreq : s.activeReq = true) :
    (stopFn s false).2 = true ∧
    (getBatchCatch o (stopFn s false).1 (requestAbortedError msg)).2.1 = [Event.aborted] ∧
    (∀ e, Event.error e ∉ (getBatchCatch o (stopFn s false).1 (requestAbortedError msg)).2.1) ∧
    (getBatchCatch o (stopFn s false).1 (requestAbortedError msg)).2.2 = none ∧
    (startFn (stopFn s false).1).2 = true := by
  refine ⟨by simp [stopFn, hreq], ?_, ?_, ?_, by simp [stopFn, startFn]⟩
  · simp [getBatchCatch, isAbortCode, requestAbortedError]
  · intro e
    simp [getBatchCatch, isAbortCode, requestAbortedError]
  · simp [getBatchCatch, isAbortCode, requestAbortedError]

/-- Witness for `hard_stop_aborts` at a concrete state. -/
theorem hard_stop_aborts_witness :
    (stopFn { running := true, activeReq := true } false).2 = true :=
  (hard_stop_aborts {} { running := true, activeReq := true } "aborted by user" rfl).1

theorem sendMessageBatchEntries_ids {α : Type} (l : List α) (start : Nat) :
    (sendMessageBatchEntries l start).map SendEntry.Id =
      (List.range l.length).map (fun i => toString (start + i)) := by
  induction l generalizing start with
  | nil => rfl
  | cons m rest ih =>
    simp only [sendMessageBatchEntries, List.map_cons, List.length_cons,
      List.range_succ_eq_map, List.map_map]
    refine congrArg₂ _ (by simp) ?_
    rw [ih (start + 1)]
    refine List.map_congr_left ?_
    intro i _
    simp only [Function.comp_apply]
    congr 1
    omega

theorem sendMessageBatchEntries_bodies {α : Type} (l : List α) (start : Nat) :
    (sendMessageBatchEntries l start).map SendEntry.MessageBody = l := by
  induction l generalizing start with
  | nil => rfl
  | cons m rest ih =>
    simp only [sendMessageBatchEntries, List.map_cons, ih]

theorem buildBatches_join_aux {α : Type} (n : Nat) (l : List α) (hl : l.length ≤ n) :
    (buildBatches l).flatten = l := by
  induction n generalizing l with
  | zero =>
    cases l with
    | nil => simp [buildBatches]
    | cons m rest => simp at hl
  | succ n ih =>
    cases l with
    | nil => simp [buildBatches]
    | cons m rest =>
      rw [buildBatches]
      simp only [List.flatten_cons]
      rw [ih (rest.drop (AWS_MAX_SEND_BATCH - 1))
        (by simp only [List.length_drop]; simp only [List.length_cons] at hl; omega)]
      simp [List.take_append_drop]

theorem buildBatches_join {α : Type} (l : List α) : (buildBatches l).flatten = l :=
  buildBatches_join_aux l.length l le_rfl

theorem buildBatches_size_aux {α : Type} (n : Nat) (l : List α) (hl : l.length ≤ n) :
    ∀ b ∈ buildBatches l, b.length ≤ AWS_MAX_SEND_BATCH := by
  induction n generalizing l with
  | zero =>
    cases l with
    | nil => intro b hb; simp [buildBatches] at hb
    | cons m rest => simp at hl
  | succ n ih =>
    cases l with
    | nil => intro b hb; simp [buildBatches] at hb
    | cons m rest =>
      rw [buildBatches]
      intro b hb
      rcases List.mem_cons.mp hb with hb1 | hb2
      · subst hb1
        simp only [List.length_cons, List.length_take, AWS_MAX_SEND_BATCH]
        omega
      · exact ih (rest.drop (AWS_MAX_SEND_BATCH - 1))
          (by simp only [List.length_drop]; simp only [List.length_cons] at hl; omega) b hb2

theorem sendMessagesEntries_ids_aux {α : Type} (n : Nat) (msgs : List α) (start : Nat)
    (hl : msgs.length ≤ n) :
    (sendBatchesEntries (buildBatches msgs) start).flatten.map SendEntry.Id =
      (List.range msgs.length).map (fun i => toString (start + i)) := by
  induction n generalizing msgs start with
  | zero =>
    cases msgs with
    | nil => simp [buildBatches, sendBatchesEntries]
    | cons m rest => simp at hl
  | succ n ih =>
    cases msgs with
    | nil => simp [buildBatches, sendBatchesEntries]
    | cons m rest =>
      rw [buildBatches]
      simp only [sendBatchesEntries, List.flatten_cons, List.map_append]
      rw [sendMessageBatchEntries_ids, ih (rest.drop (AWS_MAX_SEND_BATCH - 1)) _
        (by simp only [List.length_drop]; simp only [List.length_cons] at hl; omega)]
      by_cases hr : AWS_MAX_SEND_BATCH - 1 ≤ rest.length
      · have hlen1 : (m :: rest.take (AWS_MAX_SEND_BATCH - 1)).length = AWS_MAX_SEND_BATCH := by
          simp only [List.length_cons, List.length_take, AWS_MAX_SEND_BATCH] at *
          omega
        have hsplit : (m :: rest).length =
            AWS_MAX_SEND_BATCH + (rest.drop (AWS_MAX_SEND_BATCH - 1)).length := by
          simp only [List.length_cons, List.length_drop, AWS_MAX_SEND_BATCH] at *
          omega
        rw [hlen1, hsplit, List.range_add, List.map_append, List.map_map]
        refine congrArg₂ _ rfl ?_
        refine List.map_congr_left ?_
        intro i _
        simp only [Function.comp_apply]
        congr 1
        omega
      · have hdrop : rest.drop (AWS_MAX_SEND_BATCH - 1) = [] := by
          rw [List.drop_eq_nil_iff]
          omega
        have htake : rest.take (AWS_MAX_SEND_BATCH - 1) = rest := by
          rw [List.take_of_length_le]
          omega
        rw [hdrop, htake]
        simp

/-- C9: `sendMessages` cuts its input into chunks of at most 10, assigns
the message at position `i` of the original sequence the stringified
identifier `String(i)`, and resolves with `Successful`/`Failed` lists that
concatenate each chunk's per-item results in chunk order; the chunks
together carry exactly the original messages in order. -/
theorem sendMessages_batching {α β : Type} (msgs : List α)
    (results : List (SendBatchResult β)) :
    (∀ b ∈ buildBatches msgs, b.length ≤ AWS_MAX_SEND_BATCH) ∧
    (buildBatches msgs).flatten = msgs ∧
    (sendMessagesEntries msgs).flatten.map SendEntry.Id =
      (List.range msgs.length).map (fun i => toString i) ∧
    (sendMessagesEntries msgs).flatten.map SendEntry.MessageBody = msgs ∧
    (mergeResults results).Successful = (results.map SendBatchResult.Successful).flatten ∧
    (mergeResults results).Failed = (results.map SendBatchResult.Failed).flatten := by
  refine ⟨buildBatches_size_aux msgs.length msgs le_rfl, buildBatches_join msgs, ?_, ?_, rfl, rfl⟩
  · rw [sendMessagesEntries, sendMessagesEntries_ids_aux msgs.length msgs 0 le_rfl]
    refine List.map_congr_left ?_
    intro i _
    congr 1
    omega
  · rw [sendMessagesEntries]
    have hgen : ∀ (bs : List (List α)) (start : Nat),
        (sendBatchesEntries bs start).flatten.map SendEntry.MessageBody = bs.flatten := by
      intro bs
      induction bs with
      | nil => intro start; rfl
      | cons b bs ih =>
        intro start
        simp only [sendBatchesEntries, List.flatten_cons, List.map_append,
          sendMessageBatchEntries_bodies, ih]
    rw [hgen, buildBatches_join]

/-- Witness for `sendMessages_batching`: twelve messages split 10 + 2. -/
theorem sendMessages_batching_witness :
    (buildBatches ["m0", "m1", "m2", "m3", "m4", "m5", "m6", "m7", "m8", "m9", "m10",
      "m11"]).flatten =
      ["m0", "m1", "m2", "m3", "m4", "m5", "m6", "m7", "m8", "m9", "m10", "m11"] :=
  (sendMessages_batching
    ["m0", "m1", "m2", "m3", "m4", "m5", "m6", "m7", "m8", "m9", "m10", "m11"]
    ([] : List (SendBatchResult String))).2.1

theorem messageCtor_raw {J : Type} (parse : String → Option J)
    (snsOf : J → SnsEnvelope) (unwrapSns : Bool) (bodyFormat : String)
    (msg : RawMsg) (mv : MessageVal J)
    (h : messageCtor parse snsOf unwrapSns bodyFormat msg = some mv) :
    mv.raw = msg := by
  unfold messageCtor at h
  by_cases hu : unwrapSns = true
  · rw [if_pos hu] at h
    cases hp : parse msg.Body with
    | none =>
      rw [hp] at h
      simp at h
    | some j =>
      rw [hp] at h
      dsimp only at h
      rcases Option.map_eq_some'.mp h with ⟨b, _, hb⟩
      rw [← hb]
  · rw [if_neg hu] at h
    rcases Option.map_eq_some'.mp h with ⟨b, _, hb⟩
    rw [← hb]

theorem emitMessages_throw {J : Type} (parse : String → Option J)
    (snsOf : J → SnsEnvelope) (unwrapSns : Bool) (bodyFormat : String)
    (goods : List RawMsg) (bad : RawMsg) (rest : List RawMsg)
    (inFlight : Int) (evs : List Event)
    (hgood : ∀ m ∈ goods, (messageCtor parse snsOf unwrapSns bodyFormat m).isSome)
    (hbad : messageCtor parse snsOf unwrapSns bodyFormat bad = none) :
    emitMessages parse snsOf unwrapSns bodyFormat (goods ++ bad :: rest) inFlight evs =
      .error (inFlight + goods.length,
        evs ++ goods.map (fun m => Event.message m.MessageId)) := by
  induction goods generalizing inFlight evs with
  | nil =>
    show emitMessages parse snsOf unwrapSns bodyFormat (bad :: rest) inFlight evs = _
    unfold emitMessages
    rw [hbad]
    simp
  | cons g goods ih =>
    show emitMessages parse snsOf unwrapSns bodyFormat
      (g :: (goods ++ bad :: rest)) inFlight evs = _
    unfold emitMessages
    have hg : (messageCtor parse snsOf unwrapSns bodyFormat g).isSome :=
      hgood g (List.mem_cons_self g goods)
    cases hc : messageCtor parse snsOf unwrapSns bodyFormat g with
    | none => rw [hc] at hg; simp at hg
    | some mv =>
      dsimp only
      rw [ih (inFlight + 1) (evs ++ [Event.message mv.raw.MessageId])
        (fun m hm => hgood m (List.mem_cons_of_mem g hm))]
      rw [messageCtor_raw parse snsOf unwrapSns bodyFormat g mv hc]
      simp only [List.length_cons, List.map_cons, List.append_assoc,
        List.singleton_append]
      congr 2
      push_cast
      ring

/-- C10: when `bodyFormat` is "json" (or `unwrapSns` is set), `Message`
construction runs `JSON.parse` and a body that fails to parse makes the
constructor throw; delivery of the receive batch stops at the offending
message — messages before it are counted in flight and delivered, the
offending and all later messages are neither counted nor delivered — and
the exception lands in the poll loop's catch path, which emits one generic
`error` and schedules a retry after `pollRetryMs` instead of reporting the
failure per-message. -/
theorem json_parse_failure_aborts_batch {J : Type} (o : Opts)
    (parse : String → Option J) (snsOf : J → SnsEnvelope)
    (unwrapSns : Bool) (bodyFormat : String)
    (goods : List RawMsg) (bad : RawMsg) (rest : List RawMsg) (inFlight : Int)
    (hgood : ∀ m ∈ goods, (messageCtor parse snsOf unwrapSns bodyFormat m).isSome)
    (hbad : messageCtor parse snsOf unwrapSns bodyFormat bad = none) :
    (∀ raw : RawMsg, parse raw.Body = none →
      messageCtor parse snsOf true bodyFormat raw = none ∧
      messageCtor parse snsOf false "json" raw = none) ∧
    receiveRound o parse snsOf unwrapSns bodyFormat
        (.ok (some (goods ++ bad :: rest))) inFlight =
      (inFlight + goods.length,
       Event.gotMessages (goods ++ bad :: rest).length ::
         (goods.map (fun m => Event.message m.MessageId) ++ [Event.error syntaxError]),
       .retryAfter o.pollRetryMs) := by
  constructor
  · intro raw hraw
    constructor
    · unfold messageCtor
      rw [if_pos rfl, hraw]
    · unfold messageCtor
      rw [if_neg (by simp)]
      unfold formatMessage
      rw [hraw]
      rfl
  · unfold receiveRound
    dsimp only
    rw [emitMessages_throw parse snsOf unwrapSns bodyFormat goods bad rest inFlight
      [Event.gotMessages (goods ++ bad :: rest).length] hgood hbad]
    simp

/-- Witness for `json_parse_failure_aborts_batch`: a two-good-one-bad batch
under `bodyFormat: "json"` with a concrete parser. -/
theorem json_parse_failure_aborts_batch_witness :
    receiveRound {} (fun s => if s == "{}" then some () else none)
        (fun _ => ⟨"inner", "subj", "arn:aws:sns:topic"⟩) false "json"
        (.ok (some [⟨"id1", "rh1", "{}"⟩, ⟨"id2", "rh2", "oops"⟩, ⟨"id3", "rh3", "{}"⟩]))
        0 =
      (1, [Event.gotMessages 3, Event.message "id1", Event.error syntaxError],
       PollOutcome.retryAfter 2000) := by
  have h := (json_parse_failure_aborts_batch ({} : Opts)
    (fun s => if s == "{}" then some () else none)
    (fun _ => ⟨"inner", "subj", "arn:aws:sns:topic"⟩) false "json"
    [⟨"id1", "rh1", "{}"⟩] ⟨"id2", "rh2", "oops"⟩ [⟨"id3", "rh3", "{}"⟩] 0
    (by decide) (by decide)).2
  simpa using h

namespace TimeoutExtender

/-- C3 counterexample: (a) with default options, a (late) renewal of a
message that is within `AWS_MAX_SEND_BATCH` of the AWS age ceiling is
rescheduled at `+min(L, MAX_MESSAGE_AGE_MS − age)` = +15000 ms, not `+L` =
+30000 ms; (b) with a configured maximum lifetime of 61 s, the second
renewal extends the message's lease to a total age of 85000 ms > 61000 ms:
the clamp uses the AWS constant `MAX_MESSAGE_AGE_MS`, not the configured
`stopAfter`. -/
theorem renewal_schedule_counterexample :
    (timerFire {} 43180000 (addMessage {} 0 "m" {})).2 = some 15 ∧
    (timerFire {} 43180000 (addMessage {} 0 "m" {})).1.nodes =
      [⟨"m", 0, 43195000⟩] ∧
    (43195000 : Int) ≠ 43180000 + (visTimeout {} : Int) ∧
    (timerFire ⟨30, 61, 5000⟩ 25000 (addMessage ⟨30, 61, 5000⟩ 0 "m" {})).1.nodes =
      [⟨"m", 0, 55000⟩] ∧
    (timerFire ⟨30, 61, 5000⟩ 55000 ⟨[⟨"m", 0, 55000⟩], []⟩).2 = some 30 ∧
    extendedAge ⟨30, 61, 5000⟩ 55000 ⟨"m", 0, 55000⟩ = 85000 ∧
    ¬ (extendedAge ⟨30, 61, 5000⟩ 55000 ⟨"m", 0, 55000⟩ ≤
        (stopAfter ⟨30, 61, 5000⟩ : Int)) := by
  decide

/-- C3 (amended): a message added at `now` gets its first renewal scheduled
at `L − T` after arrival (`L` the lease duration `visTimeout`, `T` the lead
`apiLeadMs`); a renewal at `now` unlinks the node and re-appends it at the
tail with `timerOn = now + extendBySecs·1000`, which equals `now + L`
whenever the AWS age ceiling leaves room for a full lease; a head at or
past the configured cutoff `stopAfter` is retired without renewal; and the
age covered by any renewal made below the cutoff never exceeds the AWS
ceiling `MAX_MESSAGE_AGE_MS` (it may exceed a configured `stopAfter`
smaller than the ceiling by up to one lease duration). -/
theorem renewal_schedule (o : TOpts) (now : Int) (id : String) (s : ExtState)
    (node : TNode) :
    (addMessage o now id s).nodes =
      s.nodes ++ [⟨id, now, now + (visTimeout o : Int) - (apiLeadMs o : Int)⟩] ∧
    (renewNodeSync o now node s).1.nodes =
      (deleteNode s node.msgId).nodes ++
        [{ node with timerOn := now + extendBySecs o now node * 1000 }] ∧
    (getNodeAge o now node + (visTimeout o : Int) ≤ (MAX_MESSAGE_AGE_MS : Int) →
      extendBySecs o now node * 1000 = (visTimeout o : Int)) ∧
    (∀ head rest, s.nodes = head :: rest →
      getNodeAge o now head ≥ (stopAfter o : Int) →
      timerFire o now s = (deleteNode s head.msgId, none)) ∧
    (getNodeAge o now node < (stopAfter o : Int) →
      extendedAge o now node ≤ (MAX_MESSAGE_AGE_MS : Int)) := by
  refine ⟨rfl, rfl, ?_, ?_, ?_⟩
  · intro h
    unfold extendBySecs extendByMs
    have hmin : min ((visTimeout o : Int))
        ((MAX_MESSAGE_AGE_MS : Int) - getNodeAge o now node) = (visTimeout o : Int) := by
      omega
    rw [hmin]
    unfold visTimeout
    push_cast
    rw [Int.mul_fdiv_cancel _ (by norm_num)]
  · intro head rest hs hage
    unfold timerFire
    rw [hs]
    dsimp only
    rw [if_pos hage]
  · intro h
    have hlead : (0 : Int) ≤ (apiLeadMs o : Int) := Int.ofNat_nonneg _
    have h1 : extendByMs o now node ≤
        (MAX_MESSAGE_AGE_MS : Int) - getNodeAge o now node := min_le_right _ _
    have h2 : extendBySecs o now node * 1000 ≤ extendByMs o now node := by
      unfold extendBySecs
      rw [Int.fdiv_eq_ediv _ (by norm_num)]
      exact Int.ediv_mul_le _ (by norm_num)
    unfold extendedAge
    unfold getNodeAge at h1
    omega

/-- Witness for `renewal_schedule` at a concrete renewal well below the AWS
ceiling. -/
theorem renewal_schedule_witness :
    extendBySecs {} 25000 ⟨"m", 0, 0⟩ * 1000 = (visTimeout {} : Int) :=
  (renewal_schedule {} 25000 "m" {} ⟨"m", 0, 0⟩).2.2.1 (by decide)

/-- C5 counterexample: a lease-renewal failure that does not match the
"message gone" pattern emits a generic `error` but leaves the node in the
tracker — the node is not retired, contradicting the claim; it will be
renewed again at its next deadline. -/
theorem generic_renew_failure_keeps_node :
    (renewComplete ⟨"m", 0, 55000⟩ (RenewOutcome.fail ⟨none, "boom"⟩)
        ⟨[⟨"m", 0, 55000⟩], []⟩).nodes = [⟨"m", 0, 55000⟩] ∧
    (renewComplete ⟨"m", 0, 55000⟩ (RenewOutcome.fail ⟨none, "boom"⟩)
        ⟨[⟨"m", 0, 55000⟩], []⟩).events = [Event.error ⟨none, "boom"⟩] := by
  decide

/-- C5 (amended): a renewal failure whose message matches
"Message does not exist or is not available" unlinks the node from the
tracker and emits exactly one `autoExtendFail` carrying the message id and
the error; any other renewal failure emits exactly one generic `error` and
leaves the node tracked (it is retried at its renewed deadline); renewal
attempts on a node cease once its age reaches the configured cutoff, at
which point the timer path retires it. -/
theorem renew_failure_dispatch (s : ExtState) (node : TNode) (e : Err) :
    (matchesMsgGone e = true →
      renewComplete node (.fail e) s =
        { nodes := s.nodes.eraseP (fun n => n.msgId == node.msgId),
          events := s.events ++ [Event.autoExtendFail node.msgId e] }) ∧
    (matchesMsgGone e = false →
      renewComplete node (.fail e) s =
        { nodes := s.nodes, events := s.events ++ [Event.error e] }) ∧
    (∀ (o : TOpts) (now : Int) (head : TNode) (rest : List TNode),
      s.nodes = head :: rest →
      getNodeAge o now head ≥ (stopAfter o : Int) →
      timerFire o now s = (deleteNode s head.msgId, none)) := by
  refine ⟨?_, ?_, ?_⟩
  · intro h
    unfold renewComplete
    dsimp only
    rw [if_pos h]
    rfl
  · intro h
    unfold renewComplete
    dsimp only
    rw [if_neg (by simp [h])]
  · intro o now head rest hs hage
    unfold timerFire
    rw [hs]
    dsimp only
    rw [if_pos hage]

/-- Witness for `renew_failure_dispatch`: a "message gone" failure retires
the node and emits `autoExtendFail`. -/
theorem renew_failure_dispatch_witness :
    renewComplete ⟨"m", 0, 55000⟩
        (RenewOutcome.fail
          ⟨some "MessageNotInflight", "Message does not exist or is not available."⟩)
        ⟨[⟨"m", 0, 55000⟩], []⟩ =
      { nodes := [(⟨"m", 0, 55000⟩ : TNode)].eraseP (fun n => n.msgId == "m"),
        events := [] ++ [Event.autoExtendFail "m"
          ⟨some "MessageNotInflight", "Message does not exist or is not available."⟩] } :=
  (renew_failure_dispatch ⟨[⟨"m", 0, 55000⟩], []⟩ ⟨"m", 0, 55000⟩
    ⟨some "MessageNotInflight", "Message does not exist or is not available."⟩).1
    (by decide)

end TimeoutExtender

end Squiss
